import Mathlib

/-!
Shallow embedding of the servicenow.itsm repository pieces under
verification: the table client (`plugins/module_utils/table.py`), the
problem client (`plugins/module_utils/problem.py`), and the dynamic
inventory pipeline whose behaviour is pinned by the unit tests
(`tests/unit/plugins/inventory/test_now.py`).  Python dictionaries become
association lists, fallible code returns `Except`/`Option`, and the
pagination while-loop gets an explicit fuel argument.
-/

set_option autoImplicit false

/-- Values that may appear in an HTTP query-parameter dictionary.  The
Python code puts strings (`"true"`), ints (`sysparm_limit`) and booleans
(`problem.py` passes the boolean `True`) into query dicts, so the value
type distinguishes all three. -/
inductive QVal where
  | str (s : String)
  | nat (n : Nat)
  | bool (b : Bool)
deriving DecidableEq

/-- A query dict: ordered association list from parameter name to value. -/
abbrev SnQuery := List (String × QVal)

/-- Association-list lookup (a Python dict read). -/
def alookup {α : Type} : List (String × α) → String → Option α
  | [], _ => none
  | (k, v) :: rest, key => if k = key then some v else alookup rest key

/-- Association-list insert-or-override that keeps the original key
position, mirroring Python dict update semantics. -/
def aupsert {α : Type} : List (String × α) → String → α → List (String × α)
  | [], key, v => [(key, v)]
  | (k, w) :: rest, key, v =>
      if k = key then (key, v) :: rest else (k, w) :: aupsert rest key v

theorem alookup_aupsert_self {α : Type} (l : List (String × α)) (k : String) (v : α) :
    alookup (aupsert l k v) k = some v := by
  induction l with
  | nil => simp [aupsert, alookup]
  | cons p rest ih =>
      obtain ⟨pk, pv⟩ := p
      by_cases h : pk = k
      · simp [aupsert, h, alookup]
      · simp [aupsert, h, alookup, ih]

theorem alookup_aupsert_ne {α : Type} (l : List (String × α)) (k k' : String) (v : α)
    (h : k ≠ k') : alookup (aupsert l k v) k' = alookup l k' := by
  induction l with
  | nil => simp [aupsert, alookup, h]
  | cons p rest ih =>
      obtain ⟨pk, pv⟩ := p
      by_cases hp : pk = k
      · subst hp
        simp [aupsert, alookup, h]
      · have h2 : k' ≠ k := Ne.symm h
        by_cases hp' : pk = k'
        · simp [aupsert, hp, alookup, hp', h2]
        · simp [aupsert, hp, alookup, hp', ih]

/-- `table.py` `_query`: merges `sysparm_exclude_reference_link="true"`
into the caller-supplied query; the explicit keyword argument overrides
any caller-supplied value for that key. -/
def table_query (original : SnQuery) : SnQuery :=
  aupsert original "sysparm_exclude_reference_link" (QVal.str "true")

/-- The slice of an HTTP response consumed by `list_records`:
`response.json["result"]` and `int(response.headers["x-total-count"])`. -/
structure GetResponse (α : Type) where
  result : List α
  totalCount : Nat

/-- The per-iteration query dict sent by the loop:
`dict(base_query, sysparm_offset=offset)`. -/
def page_query (base : SnQuery) (offset : Nat) : SnQuery :=
  aupsert base "sysparm_offset" (QVal.nat offset)

/-- The while-loop of `TableClient.list_records` (`table.py` lines 33-44)
with explicit fuel; it logs the `sysparm_offset` value of every GET
request it issues.  Returns `none` only when the fuel runs out, which
models the loop failing to terminate. -/
def list_records_go {α : Type} (get : SnQuery → GetResponse α) (batch : Nat)
    (base : SnQuery) :
    Nat → Nat → Nat → List α → List Nat → Option (List α × List Nat)
  | 0, _, _, _, _ => none
  | fuel + 1, offset, total, result, log =>
      if offset < total then
        let response := get (page_query base offset)
        list_records_go get batch base fuel (offset + batch) response.totalCount
          (result ++ response.result) (log ++ [offset])
      else
        some (result, log)

/-- The `base_query` built by `list_records`: `_query(query)` with
`sysparm_limit` set to the batch size. -/
def list_base_query (query : SnQuery) (batch : Nat) : SnQuery :=
  aupsert (table_query query) "sysparm_limit" (QVal.nat batch)

/-- `TableClient.list_records` without the `dot2dict` postprocessing:
starts at offset 0 with the dummy total 1 that makes the loop run at
least once. -/
def list_records {α : Type} (get : SnQuery → GetResponse α) (batch : Nat)
    (query : SnQuery) (fuel : Nat) : Option (List α × List Nat) :=
  list_records_go get batch (list_base_query query batch) fuel 0 1 [] []

/-- Honest table-API model: the server holds the full record list,
answers a page request by slicing at the `sysparm_offset` found in the
query, and reports the total record count in every response. -/
def server_get {α : Type} (all : List α) (batch : Nat) (q : SnQuery) :
    GetResponse α :=
  let offset :=
    match alookup q "sysparm_offset" with
    | some (QVal.nat k) => k
    | _ => 0
  ⟨(all.drop offset).take batch, all.length⟩

/-- `ceil(n / b)` as written in the spec, computed as `(n + b - 1) / b`. -/
def ceil_div (n b : Nat) : Nat := (n + b - 1) / b

theorem server_get_page {α : Type} (all : List α) (batch : Nat)
    (base : SnQuery) (off : Nat) :
    server_get all batch (page_query base off) =
      ⟨(all.drop off).take batch, all.length⟩ := by
  simp [server_get, page_query, alookup_aupsert_self]

theorem ceil_div_zero (b : Nat) (hb : 0 < b) : ceil_div 0 b = 0 := by
  rw [ceil_div]
  exact Nat.div_eq_of_lt (by omega)

theorem ceil_div_pos (n b : Nat) (hb : 0 < b) (hn : 0 < n) :
    1 ≤ ceil_div n b := by
  rw [ceil_div, Nat.le_div_iff_mul_le hb]
  omega

theorem ceil_div_succ (n b : Nat) (hb : 0 < b) (hn : 0 < n) :
    ceil_div n b = ceil_div (n - b) b + 1 := by
  rcases le_or_lt n b with h | h
  · have h1 : n - b = 0 := by omega
    have h2 : ceil_div n b = 1 := by
      rw [ceil_div]
      exact Nat.div_eq_of_lt_le (by omega) (by omega)
    rw [h1, h2, ceil_div_zero b hb]
  · have : n + b - 1 = ((n - b) + b - 1) + b := by omega
    rw [ceil_div, this, Nat.add_div_right _ hb, ceil_div]

theorem list_records_go_stop {α : Type} (get : SnQuery → GetResponse α)
    (batch : Nat) (base : SnQuery) (fuel offset total : Nat)
    (result : List α) (log : List Nat) (h : total ≤ offset) :
    list_records_go get batch base (fuel + 1) offset total result log =
      some (result, log) := by
  rw [list_records_go, if_neg (by omega)]

theorem range_map_mul_shift (c offset batch : Nat) :
    (List.range (c + 1)).map (fun i => offset + i * batch) =
      offset :: (List.range c).map (fun i => (offset + batch) + i * batch) := by
  have hf : ((fun i => offset + i * batch) ∘ Nat.succ) =
      fun i => (offset + batch) + i * batch := by
    funext i
    simp only [Function.comp_apply, Nat.succ_mul]
    ring
  rw [List.range_succ_eq_map, List.map_cons, List.map_map, hf]
  simp

theorem list_records_go_spec {α : Type} (all : List α) (batch : Nat)
    (hb : 0 < batch) (base : SnQuery) :
    ∀ fuel offset result log,
      all.length ≤ offset + fuel * batch →
      list_records_go (server_get all batch) batch base (fuel + 1) offset
          all.length result log =
        some (result ++ all.drop offset,
          log ++ (List.range (ceil_div (all.length - offset) batch)).map
            (fun i => offset + i * batch)) := by
  intro fuel
  induction fuel with
  | zero =>
      intro offset result log hle
      simp only [Nat.zero_mul, Nat.add_zero] at hle
      rw [list_records_go_stop _ _ _ _ _ _ _ _ hle]
      have hdrop : all.drop offset = [] := List.drop_eq_nil_of_le hle
      have hc : all.length - offset = 0 := by omega
      simp [hdrop, hc, ceil_div_zero _ hb]
  | succ f ih =>
      intro offset result log hle
      by_cases hguard : offset < all.length
      · rw [list_records_go, if_pos hguard]
        simp only [server_get_page]
        have hmul : (f + 1) * batch = f * batch + batch := Nat.succ_mul f batch
        have hle' : all.length ≤ (offset + batch) + f * batch := by omega
        rw [ih (offset + batch) (result ++ (all.drop offset).take batch)
          (log ++ [offset]) hle']
        have hchunk :
            (result ++ (all.drop offset).take batch) ++ all.drop (offset + batch) =
              result ++ all.drop offset := by
          rw [List.append_assoc]
          congr 1
          rw [← List.drop_drop, List.take_append_drop]
        have hpos : 0 < all.length - offset := by omega
        have hcd : ceil_div (all.length - offset) batch =
            ceil_div (all.length - (offset + batch)) batch + 1 := by
          rw [ceil_div_succ _ _ hb hpos, Nat.sub_sub]
        rw [hchunk, hcd, range_map_mul_shift]
        simp
      · rw [list_records_go_stop _ _ _ _ _ _ _ _ (by omega)]
        have hdrop : all.drop offset = [] := List.drop_eq_nil_of_le (by omega)
        have hc : all.length - offset = 0 := by omega
        simp [hdrop, hc, ceil_div_zero _ hb]

theorem list_records_go_step {α : Type} (get : SnQuery → GetResponse α)
    (batch : Nat) (base : SnQuery) (fuel offset total : Nat)
    (result : List α) (log : List Nat) (h : offset < total) :
    list_records_go get batch base (fuel + 1) offset total result log =
      list_records_go get batch base fuel (offset + batch)
        (get (page_query base offset)).totalCount
        (result ++ (get (page_query base offset)).result) (log ++ [offset]) := by
  simp only [list_records_go]
  rw [if_pos h]

/-- C1: for every total record count and every positive batch size,
`TableClient.list_records` run against an honest server issues exactly
`max 1 (ceil(total / batch_size))` GET requests, whose `sysparm_offset`
values are `0, batch_size, 2*batch_size, ...`, and returns the
concatenation of every page's records in arrival order (the full record
list).  The request log returned alongside the records carries one entry
per GET request; fuel `total + 2` is enough for the loop to finish. -/
theorem C1_list_records_pagination {α : Type} (all : List α) (batch : Nat)
    (query : SnQuery) (hb : 0 < batch) :
    list_records (server_get all batch) batch query (all.length + 2) =
      some (all,
        (List.range (max 1 (ceil_div all.length batch))).map
          (fun i => i * batch)) := by
  rw [list_records,
    show all.length + 2 = (all.length + 1) + 1 from rfl,
    list_records_go_step _ _ _ _ _ _ _ _ (by omega), server_get_page]
  simp only [List.drop_zero, List.nil_append, Nat.zero_add]
  have hfuel : all.length ≤ batch + all.length * batch := by
    have h1 : all.length ≤ all.length * batch := Nat.le_mul_of_pos_right _ hb
    omega
  rw [list_records_go_spec all batch hb _ all.length batch _ _ hfuel]
  rw [List.take_append_drop]
  rcases Nat.eq_zero_or_pos all.length with hlen | hlen
  · rw [hlen]
    have hz : 0 - batch = 0 := by omega
    rw [hz, ceil_div_zero _ hb]
    have hm : (1 : Nat) ⊔ 0 = 1 := by omega
    rw [hm, show List.range 1 = [0] from rfl]
    simp
  · have h1 : max 1 (ceil_div all.length batch) = ceil_div all.length batch :=
      Nat.max_eq_right (ceil_div_pos _ _ hb hlen)
    rw [h1, ceil_div_succ _ _ hb hlen]
    have h0 := range_map_mul_shift (ceil_div (all.length - batch) batch) 0 batch
    simp only [Nat.zero_add] at h0
    rw [List.singleton_append, ← h0]

/-- Witness for C1 at the spec's example: total 2, batch size 1 gives two
requests at offsets 0 and 1 and both records in page order. -/
theorem C1_list_records_pagination_witness :
    list_records (server_get (["r1", "r2"] : List String) 1) 1 []
        ((["r1", "r2"] : List String).length + 2) =
      some (["r1", "r2"], [0, 1]) := by
  rw [C1_list_records_pagination (["r1", "r2"] : List String) 1 [] (by decide)]
  rfl

/-- A JSON-ish value held in a table record field: a string leaf or a
nested object (produced by the dotted-key expansion). -/
inductive JVal where
  | str (s : String)
  | obj (fields : List (String × JVal))

/-- A table record: ordered field-name/value mapping. -/
abbrev JRecord := List (String × JVal)

/-- `TableClient._record_rec` (`table.py` lines 64-74).  The Python code
asserts on an empty key list (modelled as an error), writes the value at
a single key, and otherwise descends through `nested_record.get(key,
dict())`; descending into an existing non-dict value raises a TypeError
in Python, also modelled as an error. -/
def record_rec (nested : JRecord) : List String → JVal → Except String JRecord
  | [], _ => .error "assertion failed"
  | [k], v => .ok (aupsert nested k v)
  | k :: k2 :: ks, v =>
      match alookup nested k with
      | some (JVal.str _) => .error "TypeError"
      | some (JVal.obj o) =>
          (record_rec o (k2 :: ks) v).map (fun r => aupsert nested k (JVal.obj r))
      | none =>
          (record_rec [] (k2 :: ks) v).map (fun r => aupsert nested k (JVal.obj r))

/-- `TableClient._record_dot2dict` (`table.py` lines 55-62): copies each
key-value pair into a fresh record and then expands the dotted key into
nested objects. -/
def record_dot2dict (record : JRecord) : Except String JRecord :=
  record.foldlM (fun out kv =>
    record_rec (aupsert out kv.1 kv.2) (kv.1.splitOn ".") kv.2) []

/-- `TableClient._dot2dict` (`table.py` lines 51-53): rewrites every list
entry in place (the first component of the returned pair holds the
mutated entries) and, having no `return` statement, evaluates to Python
`None` (the second component). -/
def dot2dict (records : List JRecord) :
    Except String (List JRecord × Option (List JRecord)) :=
  (records.mapM record_dot2dict).map (fun rs => (rs, none))

/-- `TableClient.list_records` including the `dot2dict` postprocessing:
when the flag is set the function rebinds its result to
`self._dot2dict(result)`, i.e. to the return value of `_dot2dict`
(Python `None`), not to the mutated list. -/
def list_records_d2d (get : SnQuery → GetResponse JRecord) (batch : Nat)
    (query : SnQuery) (fuel : Nat) (d2d : Bool) :
    Option (Except String (Option (List JRecord)) × List Nat) :=
  (list_records get batch query fuel).map (fun p =>
    (if d2d then (dot2dict p.1).map (fun q => q.2) else .ok (some p.1), p.2))

theorem dot2dict_never_list (records rs : List JRecord) :
    (dot2dict records).map (fun q => q.2) ≠ .ok (some rs) := by
  unfold dot2dict
  generalize List.mapM record_dot2dict records = x
  rcases x with e | l <;> intro hc <;> simp [Except.map] at hc

/-- C10: whenever the pagination loop terminates, `list_records` called
with `dot2dict=True` either propagates the dotted-key expansion error or
returns Python `None` - never the fetched record list, because
`_dot2dict` mutates its argument in place and returns no value while
`list_records` rebinds `result` to that return value.  With
`dot2dict=False` the fetched record list is returned. -/
theorem C10_list_records_dot2dict_returns_none
    (get : SnQuery → GetResponse JRecord) (batch fuel : Nat) (query : SnQuery)
    (res : List JRecord) (log : List Nat)
    (h : list_records get batch query fuel = some (res, log)) :
    (∀ rs : List JRecord,
      list_records_d2d get batch query fuel true ≠ some (.ok (some rs), log)) ∧
    list_records_d2d get batch query fuel false = some (.ok (some res), log) := by
  constructor
  · intro rs hcontra
    simp only [list_records_d2d, h, Option.map_some', if_true] at hcontra
    apply dot2dict_never_list res rs
    have h2 := Option.some.inj hcontra
    exact congrArg Prod.fst h2
  · simp [list_records_d2d, h]

/-- Witness for C10 on a one-record table: with `dot2dict=True` the call
does not return the fetched record list; with `dot2dict=False` it does. -/
theorem C10_list_records_dot2dict_returns_none_witness :
    (list_records_d2d (server_get ([[("a", JVal.str "3")]] : List JRecord) 1000)
        1000 [] 2 true ≠
      some (.ok (some [[("a", JVal.str "3")]]), [0])) ∧
    list_records_d2d (server_get ([[("a", JVal.str "3")]] : List JRecord) 1000)
        1000 [] 2 false =
      some (.ok (some [[("a", JVal.str "3")]]), [0]) :=
  ⟨(C10_list_records_dot2dict_returns_none
      (server_get ([[("a", JVal.str "3")]] : List JRecord) 1000) 1000 2 []
      [[("a", JVal.str "3")]] [0] rfl).1 [[("a", JVal.str "3")]],
   (C10_list_records_dot2dict_returns_none
      (server_get ([[("a", JVal.str "3")]] : List JRecord) 1000) 1000 2 []
      [[("a", JVal.str "3")]] [0] rfl).2⟩

/-- `TableClient.get_record` (`table.py` lines 76-91), factored over the
record list that `list_records(table, query)` returned; `queryText` is
the Python str() rendering of the query dict as it is interpolated into
the two error messages. -/
def get_record_from {α : Type} (table : String) (queryText : String)
    (records : List α) (mustExist : Bool) : Except String (Option α) :=
  if records.length > 1 then
    .error (toString records.length ++ " " ++ table ++
      " records match the " ++ queryText ++ " query.")
  else if mustExist && records.isEmpty then
    .error ("No " ++ table ++ " records match the " ++ queryText ++ " query.")
  else
    .ok records.head?

/-- C8: `get_record` fails with a message carrying the record count, the
table and the query whenever more than one record matches (for any
`must_exist`); fails with the message naming the table and the query
(and stating that no records matched) when zero records match and
`must_exist` is set; and returns the single matching record otherwise. -/
theorem C8_get_record_trichotomy {α : Type} (table queryText : String)
    (records : List α) (mustExist : Bool) :
    (1 < records.length →
      get_record_from table queryText records mustExist =
        .error (toString records.length ++ " " ++ table ++
          " records match the " ++ queryText ++ " query.")) ∧
    (records = [] → mustExist = true →
      get_record_from table queryText records mustExist =
        .error ("No " ++ table ++ " records match the " ++ queryText ++
          " query.")) ∧
    (∀ r : α, records = [r] →
      get_record_from table queryText records mustExist = .ok (some r)) ∧
    (records = [] → mustExist = false →
      get_record_from table queryText records mustExist = .ok none) := by
  refine ⟨?_, ?_, ?_, ?_⟩
  · intro h
    rw [get_record_from, if_pos h]
  · intro h1 h2
    subst h1
    subst h2
    rfl
  · intro r h
    subst h
    rcases mustExist with _ | _ <;> rfl
  · intro h1 h2
    subst h1
    subst h2
    rfl

/-- Witness for C8: two matching records produce the error naming the
count, the table and the query; one matching record is returned. -/
theorem C8_get_record_trichotomy_witness :
    get_record_from "my_table" "our_query" (["a", "b"] : List String) false =
        .error "2 my_table records match the our_query query." ∧
    get_record_from "my_table" "our_query" ([] : List String) true =
        .error "No my_table records match the our_query query." ∧
    get_record_from "my_table" "our_query" (["a"] : List String) true =
        .ok (some "a") := by
  refine ⟨?_, ?_, ?_⟩
  · rw [(C8_get_record_trichotomy "my_table" "our_query"
      (["a", "b"] : List String) false).1 (by decide)]
    rfl
  · rw [(C8_get_record_trichotomy "my_table" "our_query"
      ([] : List String) true).2.1 rfl rfl]
    rfl
  · rw [(C8_get_record_trichotomy "my_table" "our_query"
      (["a"] : List String) true).2.2.1 "a" rfl]

/-- Query dict sent by `TableClient.create_record`: `_query()`. -/
def create_record_query : SnQuery := table_query []

/-- Query dict sent by `TableClient.update_record`: `_query()`. -/
def update_record_query : SnQuery := table_query []

/-- Query dict sent by `ProblemClient.update_record` (`problem.py` line
47): `dict(sysparm_exclude_reference_link=True)` - the Python boolean
`True`, not the string `"true"` that `table.py` uses. -/
def problem_update_query : SnQuery :=
  [("sysparm_exclude_reference_link", QVal.bool true)]

/-- C9 counterexample: the PATCH issued by `ProblemClient.update_record`
carries `sysparm_exclude_reference_link` with the Python boolean `True`,
not the string value `"true"` claimed for every call. -/
theorem C9_problem_query_value_counterexample :
    alookup problem_update_query "sysparm_exclude_reference_link" =
        some (QVal.bool true) ∧
    alookup problem_update_query "sysparm_exclude_reference_link" ≠
        some (QVal.str "true") := by
  constructor
  · rfl
  · intro h
    simp [problem_update_query, alookup] at h

/-- C9 (amended): every page request issued by `list_records` (hence by
list and get calls), for any caller query, batch size and offset,
carries `sysparm_exclude_reference_link="true"` together with
`sysparm_limit` and `sysparm_offset`; the create/update queries of
`TableClient` carry `sysparm_exclude_reference_link="true"`; the
`ProblemClient.update_record` query carries the same parameter but with
the boolean value `True`. -/
theorem C9_sysparm_parameters (original : SnQuery) (batch offset : Nat) :
    alookup (page_query (list_base_query original batch) offset)
        "sysparm_exclude_reference_link" = some (QVal.str "true") ∧
    alookup (page_query (list_base_query original batch) offset)
        "sysparm_limit" = some (QVal.nat batch) ∧
    alookup (page_query (list_base_query original batch) offset)
        "sysparm_offset" = some (QVal.nat offset) ∧
    alookup create_record_query "sysparm_exclude_reference_link" =
      some (QVal.str "true") ∧
    alookup update_record_query "sysparm_exclude_reference_link" =
      some (QVal.str "true") ∧
    alookup problem_update_query "sysparm_exclude_reference_link" =
      some (QVal.bool true) := by
  refine ⟨?_, ?_, ?_, ?_, ?_, ?_⟩
  · rw [page_query, alookup_aupsert_ne _ _ _ _ (by decide),
      list_base_query, alookup_aupsert_ne _ _ _ _ (by decide),
      table_query, alookup_aupsert_self]
  · rw [page_query, alookup_aupsert_ne _ _ _ _ (by decide),
      list_base_query, alookup_aupsert_self]
  · rw [page_query, alookup_aupsert_self]
  · rfl
  · rfl
  · rfl

/-- Modelled from the spec: the inventory plugin source
(`plugins/inventory/now.py`) is not in this tree - only its unit tests
are - so the cache reader is taken from spec §3 (cache store) and
`TestInventoryModuleCache.test_get_cached_records`: read the externally
supplied cache mapping, Python `None` on a missing key. -/
def get_cached_records {α : Type} (cache : List (String × List α))
    (key : String) : Option (List α) :=
  alookup cache key

/-- Modelled from the spec: `InventoryModule._update_cache` of the
missing `now.py`, pinned by `test_update_cache`: store the record list
wholesale under the cache key. -/
def update_cache {α : Type} (cache : List (String × List α)) (key : String)
    (records : List α) : List (String × List α) :=
  aupsert cache key records

/-- Modelled from the spec: the cache mediator
`InventoryModule._get_records_from_sn_or_cache` of the missing `now.py`,
following spec §4.4 and `test_get_records_from_sn_or_cache_flow`:
consult the cache only when the user enabled caching and the runtime
requested it; a hit (any non-`None` entry, even an empty list) is used
with `needs_update=False`; every other combination fetches from the
network, with `needs_update` true exactly when the user enabled caching. -/
def get_records_from_sn_or_cache {α : Type} (cache : List (String × List α))
    (key : String) (userCache useCache : Bool) (fetched : List α) :
    List α × Bool :=
  if userCache && useCache then
    match get_cached_records cache key with
    | some records => (records, false)
    | none => (fetched, true)
  else
    (fetched, userCache)

/-- Modelled from the spec: the cache-relevant slice of
`InventoryModule.parse`, pinned by `TestInventoryModuleParse.test_parse`:
obtain records through the mediator, then overwrite the cache entry if
and only if `cache_needs_update` came back true.  Returns the records
used and the cache state after the run. -/
def parse_cache_flow {α : Type} (cache : List (String × List α)) (key : String)
    (userCache useCache : Bool) (fetched : List α) :
    List α × List (String × List α) :=
  let rn := get_records_from_sn_or_cache cache key userCache useCache fetched
  (rn.1, if rn.2 then update_cache cache key rn.1 else cache)

/-- C2: the cache mediator follows the §4.4 decision table for every
combination of the two booleans and the lookup outcome - cached records
with `needs_update=false` only when both booleans hold and the lookup
hits; otherwise a network fetch, with `needs_update` true exactly when
the user enabled caching - and `parse` overwrites the cache entry if and
only if `needs_update` is true, so a cache hit never overwrites the
cache. -/
theorem C2_cache_mediator_table {α : Type} (cache : List (String × List α))
    (key : String) (userCache useCache : Bool) (fetched : List α) :
    (∀ records, userCache = true → useCache = true →
      get_cached_records cache key = some records →
      get_records_from_sn_or_cache cache key userCache useCache fetched =
          (records, false) ∧
        parse_cache_flow cache key userCache useCache fetched =
          (records, cache)) ∧
    (userCache = true → useCache = true →
      get_cached_records cache key = none →
      get_records_from_sn_or_cache cache key userCache useCache fetched =
          (fetched, true) ∧
        parse_cache_flow cache key userCache useCache fetched =
          (fetched, update_cache cache key fetched)) ∧
    (userCache = true → useCache = false →
      get_records_from_sn_or_cache cache key userCache useCache fetched =
          (fetched, true) ∧
        parse_cache_flow cache key userCache useCache fetched =
          (fetched, update_cache cache key fetched)) ∧
    (userCache = false →
      get_records_from_sn_or_cache cache key userCache useCache fetched =
          (fetched, false) ∧
        parse_cache_flow cache key userCache useCache fetched =
          (fetched, cache)) := by
  refine ⟨?_, ?_, ?_, ?_⟩
  · intro records hu hr hl
    subst hu
    subst hr
    constructor
    · simp [get_records_from_sn_or_cache, hl]
    · simp [parse_cache_flow, get_records_from_sn_or_cache, hl]
  · intro hu hr hl
    subst hu
    subst hr
    constructor
    · simp [get_records_from_sn_or_cache, hl]
    · simp [parse_cache_flow, get_records_from_sn_or_cache, hl]
  · intro hu hr
    subst hu
    subst hr
    exact ⟨rfl, rfl⟩
  · intro hu
    subst hu
    exact ⟨rfl, rfl⟩

/-- Witness for C2 at the test fixture: a populated cache entry is used
verbatim on a hit and the cache is left untouched; a miss with caching
requested fetches and refreshes the cache. -/
theorem C2_cache_mediator_table_witness :
    (get_records_from_sn_or_cache [("path1", [["a"]])] "path1" true true
        [["b"]] = ([["a"]], false) ∧
      parse_cache_flow [("path1", [["a"]])] "path1" true true [["b"]] =
        ([["a"]], [("path1", [["a"]])])) ∧
    (get_records_from_sn_or_cache ([("path1", [["a"]])] :
          List (String × List (List String))) "path3" true true [["b"]] =
        ([["b"]], true) ∧
      parse_cache_flow [("path1", [["a"]])] "path3" true true [["b"]] =
        ([["b"]], [("path1", [["a"]]), ("path3", [["b"]])])) := by
  constructor
  · exact (C2_cache_mediator_table [("path1", [["a"]])] "path1" true true
      [["b"]]).1 [["a"]] rfl rfl rfl
  · have h := (C2_cache_mediator_table ([("path1", [["a"]])] :
      List (String × List (List String))) "path3" true true [["b"]]).2.1
      rfl rfl (by rfl)
    exact ⟨h.1, h.2⟩


/-- Modelled from the spec (§3): the fixed comparison-operator lexicon of
the query translator of the missing `now.py`/`query.py`. -/
def sysparm_operators : List String :=
  ["=", "!=", ">", ">=", "<", "<=", "IN", "NOT IN", "STARTSWITH",
   "ENDSWITH", "CONTAINS", "LIKE"]

/-- Splitting a character list at every space, Python `str.split(" ")`
style: no collapsing of adjacent separators. -/
def words_split (acc : List Char) : List Char → List String
  | [] => [String.mk acc.reverse]
  | c :: cs =>
      if c = ' ' then String.mk acc.reverse :: words_split [] cs
      else words_split (c :: acc) cs

/-- `value.split(" ")` on a string. -/
def split_on_space (s : String) : List String := words_split [] s.toList

/-- Joining word lists back with single spaces (inverse of
`split_on_space` on space-free words). -/
def join_words : List String → String
  | [] => ""
  | [w] => w
  | w :: w2 :: ws => w ++ " " ++ join_words (w2 :: ws)

/-- Joining translated clauses with the caret separator (backend AND). -/
def join_clauses : List String → String
  | [] => ""
  | [c] => c
  | c :: c2 :: cs => c ++ "^" ++ join_clauses (c2 :: cs)

/-- Modelled from the spec (§4.1): split one filter value into
`(operator_token, operand)` at the first whitespace; an operator token
outside the lexicon is a parse error naming the offending operator and
listing the valid ones. -/
def parse_condition (value : String) : Except String (String × String) :=
  match split_on_space value with
  | [] => .error "empty condition"
  | op :: rest =>
      if op ∈ sysparm_operators then
        .ok (op, join_words rest)
      else
        .error ("Invalid condition operator " ++ op ++
          ". Valid operators are " ++ join_clauses sysparm_operators ++ ".")

/-- Modelled from the spec (§4.1): render one filter mapping - each field
becomes `field ++ operator ++ operand`, and the fields of one mapping
are concatenated with no separator. -/
def render_filter : List (String × String) → Except String String
  | [] => .ok ""
  | fv :: rest => do
      let p ← parse_condition fv.2
      let tail ← render_filter rest
      .ok (fv.1 ++ p.1 ++ p.2 ++ tail)

/-- Translate every filter mapping of the query in order. -/
def render_clauses : List (List (String × String)) → Except String (List String)
  | [] => .ok []
  | f :: fs => do
      let c ← render_filter f
      let cs ← render_clauses fs
      .ok (c :: cs)

/-- Input to the query translator: either an already-encoded query
string or a list of filter mappings. -/
inductive SysparmInput where
  | encoded (s : String)
  | filters (fs : List (List (String × String)))

/-- Modelled from the spec (§4.1) and `TestContructSysparmQuery`:
`now.construct_sysparm_query` - raw-string mode passes the input
through unchanged; filter-list mode translates every mapping and joins
the clauses with the caret separator. -/
def construct_sysparm_query : SysparmInput → Except String String
  | .encoded s => .ok s
  | .filters fs => (render_clauses fs).map (fun clauses => join_clauses clauses)

theorem construct_sysparm_query_single (field value : String) :
    construct_sysparm_query (.filters [[(field, value)]]) =
      (parse_condition value).map (fun p => field ++ p.1 ++ p.2) := by
  rcases hpc : parse_condition value with e | p
  · simp only [construct_sysparm_query, render_clauses, render_filter, hpc]
    rfl
  · obtain ⟨op, operand⟩ := p
    simp only [construct_sysparm_query, render_clauses, render_filter, hpc]
    show Except.ok (field ++ op ++ operand ++ "") =
      Except.ok (field ++ op ++ operand)
    rw [String.append_empty]

/-- C3: raw-string mode returns the input unchanged; a one-key filter
whose value splits into a lexicon operator and an operand translates to
`field ++ operator ++ operand`; a value whose first whitespace-separated
token lies outside the lexicon fails with a parse error whose message
embeds the offending operator. -/
theorem C3_construct_sysparm_query :
    (∀ s, construct_sysparm_query (.encoded s) = .ok s) ∧
    (∀ field value op rest, split_on_space value = op :: rest →
      op ∈ sysparm_operators →
      construct_sysparm_query (.filters [[(field, value)]]) =
        .ok (field ++ op ++ join_words rest)) ∧
    (∀ field value op rest, split_on_space value = op :: rest →
      op ∉ sysparm_operators →
      ∃ pre post,
        construct_sysparm_query (.filters [[(field, value)]]) =
          .error (pre ++ op ++ post)) := by
  refine ⟨fun s => rfl, ?_, ?_⟩
  · intro field value op rest hsplit hop
    rw [construct_sysparm_query_single, parse_condition, hsplit]
    simp [hop, Except.map]
  · intro field value op rest hsplit hop
    refine ⟨"Invalid condition operator ",
      ". Valid operators are " ++ join_clauses sysparm_operators ++ ".", ?_⟩
    rw [construct_sysparm_query_single, parse_condition, hsplit]
    simp [hop, Except.map, String.append_assoc]

/-- Witness for C3 at the tests' inputs: the equality and inequality
round-trips, and the unknown-operator error containing INVALID. -/
theorem C3_construct_sysparm_query_witness :
    construct_sysparm_query (.filters [[("column", "= value")]]) =
        .ok "column=value" ∧
    construct_sysparm_query (.filters [[("my", "!= value")]]) =
        .ok "my!=value" ∧
    construct_sysparm_query (.filters [[("column", "INVALID operator")]]) =
      .error ("Invalid condition operator " ++ "INVALID" ++
        (". Valid operators are " ++ join_clauses sysparm_operators ++ ".")) := by
  refine ⟨?_, ?_, ?_⟩
  · rw [C3_construct_sysparm_query.2.1 "column" "= value" "=" ["value"]
      (by rfl) (by decide)]
    rfl
  · rw [C3_construct_sysparm_query.2.1 "my" "!= value" "!=" ["value"]
      (by rfl) (by decide)]
    rfl
  · rw [construct_sysparm_query_single]
    rfl

/-- Modelled from the spec (§3): a CMDB record as the inventory plugin
sees it - string-valued fields plus the `relationship_groups` set that
the enricher may add. -/
structure InvRecord where
  fields : List (String × String)
  relationship_groups : Option (List String) := none

/-- A group map: group name to accumulated member list. -/
abbrev GroupMap := List (String × List String)

/-- Add `item` under `key`, creating the entry when absent and keeping
the member order (no duplicates). -/
def madd : GroupMap → String → String → GroupMap
  | [], key, item => [(key, [item])]
  | (k, items) :: rest, key, item =>
      if k = key then
        (k, if item ∈ items then items else items ++ [item]) :: rest
      else
        (k, items) :: madd rest key item

/-- Members of a group (empty when the group does not exist). -/
def mget (m : GroupMap) (key : String) : List String :=
  (alookup m key).getD []

/-- The group names present in a group map. -/
def mkeys (m : GroupMap) : List String := m.map (fun p => p.1)

theorem mem_mget_madd_self (m : GroupMap) (k i : String) :
    i ∈ mget (madd m k i) k := by
  induction m with
  | nil => simp [madd, mget, alookup]
  | cons p rest ih =>
      obtain ⟨pk, items⟩ := p
      by_cases h : pk = k
      · subst h
        by_cases hi : i ∈ items
        · simp [madd, mget, alookup, hi]
        · simp [madd, mget, alookup, hi]
      · simp only [madd, if_neg h]
        simpa [mget, alookup, h] using ih

theorem mget_madd_ne (m : GroupMap) (k k2 i : String) (h : k ≠ k2) :
    mget (madd m k2 i) k = mget m k := by
  induction m with
  | nil => simp [madd, mget, alookup, Ne.symm h]
  | cons p rest ih =>
      obtain ⟨pk, items⟩ := p
      by_cases hp : pk = k2
      · subst hp
        simp [madd, mget, alookup, Ne.symm h]
      · simp only [madd, if_neg hp]
        by_cases hk : pk = k
        · simp [mget, alookup, hk]
        · simp only [mget, alookup, if_neg hk]
          simpa [mget] using ih

theorem mem_mget_madd (m : GroupMap) (k k2 x i : String) :
    x ∈ mget m k → x ∈ mget (madd m k2 i) k := by
  by_cases h : k = k2
  · subst h
    induction m with
    | nil =>
        intro hx
        simp [mget, alookup] at hx
    | cons p rest ih =>
        obtain ⟨pk, items⟩ := p
        intro hx
        by_cases hp : pk = k
        · subst hp
          have hx2 : x ∈ items := by simpa [mget, alookup] using hx
          by_cases hi : i ∈ items
          · simpa [madd, mget, alookup, hi] using hx2
          · simp only [madd, if_pos rfl]
            have hx3 : x ∈ items ++ [i] := List.mem_append_left _ hx2
            simpa [mget, alookup, hi] using hx3
        · have hx2 : x ∈ mget rest k := by simpa [mget, alookup, hp] using hx
          simp only [madd, if_neg hp]
          simpa [mget, alookup, hp] using ih hx2
  · intro hx
    rw [mget_madd_ne m k k2 i h]
    exact hx

theorem mem_mkeys_madd_self (m : GroupMap) (k i : String) :
    k ∈ mkeys (madd m k i) := by
  induction m with
  | nil => simp [madd, mkeys]
  | cons p rest ih =>
      obtain ⟨pk, items⟩ := p
      by_cases h : pk = k
      · subst h
        simp [madd, mkeys]
      · simp only [madd, if_neg h, mkeys, List.map_cons, List.mem_cons]
        right
        simpa [mkeys] using ih

theorem mem_mkeys_madd (m : GroupMap) (g k i : String) (h : g ∈ mkeys m) :
    g ∈ mkeys (madd m k i) := by
  induction m with
  | nil => simp [mkeys] at h
  | cons p rest ih =>
      obtain ⟨pk, items⟩ := p
      simp only [mkeys, List.map_cons, List.mem_cons] at h
      by_cases hp : pk = k
      · subst hp
        simp only [madd, eq_self_iff_true, if_true, mkeys, List.map_cons,
          List.mem_cons]
        exact h
      · simp only [madd, if_neg hp, mkeys, List.map_cons, List.mem_cons]
        rcases h with h | h
        · exact Or.inl h
        · exact Or.inr (by simpa [mkeys] using ih (by simpa [mkeys] using h))

/-- The inventory data sink (spec §6): host list, per-host variables,
group membership map and group-nesting map. -/
structure InvState where
  hosts : List String
  hostVars : List (String × List (String × String))
  groupHosts : GroupMap
  groupChildren : GroupMap

/-- The sink state before construction: the framework's built-in `all`
and `ungrouped` groups exist and are empty. -/
def initial_inventory : InvState :=
  ⟨[], [], [("all", []), ("ungrouped", [])], []⟩

/-- Create a host entry (idempotent). -/
def inv_add_host (st : InvState) (h : String) : InvState :=
  if h ∈ st.hosts then st
  else { st with hosts := st.hosts ++ [h], hostVars := st.hostVars ++ [(h, [])] }

/-- Set one host variable. -/
def inv_set_var (st : InvState) (host k v : String) : InvState :=
  { st with hostVars := st.hostVars.map (fun p =>
      if p.1 = host then (p.1, aupsert p.2 k v) else p) }

/-- Add a host to a group, creating the group when needed. -/
def inv_add_host_to_group (st : InvState) (g host : String) : InvState :=
  { st with groupHosts := madd st.groupHosts g host }

/-- Record a group-nesting edge: `child` becomes a child of `parent`. -/
def inv_add_child_group (st : InvState) (parent child : String) : InvState :=
  { st with groupChildren := madd st.groupChildren parent child }

/-- `to_safe_group_name` as the tests exercise it: spaces and hyphens
become underscores. -/
def normalize_group_name (s : String) : String :=
  String.mk (s.toList.map (fun c => if c = ' ' ∨ c = '-' then '_' else c))

/-- Modelled from the spec (§4.5 step 1) and
`TestInventoryModuleAddHost`: `InventoryModule.add_host` of the missing
`now.py`.  A name-source column absent from the record raises a parse
error naming the column (`test_invalid_name`); an empty value silently
produces no host (`test_valid_empty_name`); otherwise the host name is
returned. -/
def add_host (record : InvRecord) (nameSource : String) :
    Except String (Option String) :=
  match alookup record.fields nameSource with
  | none => .error ("Invalid column name " ++ nameSource ++ ".")
  | some name => if name = "" then .ok none else .ok (some name)

/-- Modelled from the spec (§4.5 step 2) as pinned by the repository's
own test `TestInventoryModuleSetHostvars`: copy each configured column
onto the host's variables; a column absent from the record raises a
parse error naming the column (`test_invalid_column`). -/
def set_hostvars (st : InvState) (host : String) (record : InvRecord) :
    List String → Except String InvState
  | [] => .ok st
  | c :: cs =>
      match alookup record.fields c with
      | none => .error ("Invalid column name " ++ c ++ ".")
      | some v => set_hostvars (inv_set_var st host c v) host record cs

/-- Modelled from the spec (§4.5 steps 3 and 7): evaluate the composed
variables in order against the union of the record's fields and the
variables composed so far; the external templating collaborator reports
an undefined reference as an error naming the missing identifier.
Strict mode aborts with that error; non-strict mode skips just that one
assignment. -/
def set_composite_vars
    (tmpl : String → List (String × String) → Except String String)
    (strict : Bool) (host : String) :
    List (String × String) → InvState → List (String × String) →
      Except String (InvState × List (String × String))
  | [], st, ctx => .ok (st, ctx)
  | (name, expr) :: rest, st, ctx =>
      match tmpl expr ctx with
      | .ok v =>
          set_composite_vars tmpl strict host rest
            (inv_set_var st host name v) (aupsert ctx name v)
      | .error e =>
          if strict then .error e
          else set_composite_vars tmpl strict host rest st ctx

/-- Modelled from the spec (§4.5 steps 4 and 7): evaluate each composed
group's membership expression for the host; a truthy result adds the
host to the group (creating it), a falsy result does nothing, and an
undefined reference aborts in strict mode and is skipped in non-strict
mode (the group is not created, per
`test_construction_composed_groups`). -/
def add_composed_groups
    (tmplB : String → List (String × String) → Except String Bool)
    (strict : Bool) (host : String) (ctx : List (String × String)) :
    List (String × String) → InvState → Except String InvState
  | [], st => .ok st
  | (g, expr) :: rest, st =>
      match tmplB expr ctx with
      | .ok true =>
          add_composed_groups tmplB strict host ctx rest
            (inv_add_host_to_group st g host)
      | .ok false => add_composed_groups tmplB strict host ctx rest st
      | .error e =>
          if strict then .error e
          else add_composed_groups tmplB strict host ctx rest st

/-- One keyed-group specification (spec §4.5 step 5). -/
structure KeyedSpec where
  key : String
  default_value : String
  prefixName : String
  parent_group : Option String := none

/-- `record[key] or default`: the default value steps in when the key is
absent or its value empty (Python truthiness). -/
def keyed_group_value (ctx : List (String × String)) (spec : KeyedSpec) :
    String :=
  match alookup ctx spec.key with
  | some v => if v = "" then spec.default_value else v
  | none => spec.default_value

/-- Modelled from the spec (§4.5 step 5) as corrected by
`test_construction_keyed_groups_with_parent`: the keyed group is named
`prefix + "_" + (record[key] or default)` and receives the host; when a
parent group is configured, a group named by the configured
`parent_group` string itself (not by the record's value of that field)
receives the host and the keyed group is nested under it. -/
def add_keyed_groups (host : String) (ctx : List (String × String)) :
    List KeyedSpec → InvState → InvState
  | [], st => st
  | spec :: rest, st =>
      let gname := spec.prefixName ++ "_" ++ keyed_group_value ctx spec
      let st1 := inv_add_host_to_group st gname host
      let st2 :=
        match spec.parent_group with
        | none => st1
        | some pg =>
            inv_add_child_group (inv_add_host_to_group st1 pg host) pg gname
      add_keyed_groups host ctx rest st2

/-- Modelled from the spec (§4.5 step 6) and
`TestInventoryModuleFillEnhancedAutoGroups`: every string in the
record's `relationship_groups` becomes a group (name normalized) that
receives the host. -/
def fill_enhanced_auto_groups (record : InvRecord) (host : String)
    (st : InvState) : InvState :=
  (record.relationship_groups.getD []).foldl
    (fun acc g => inv_add_host_to_group acc (normalize_group_name g) host) st

/-- The configuration slice of the inventory plugin that
`fill_constructed` receives (spec §4.5). -/
structure InvConfig where
  columns : List String
  name_source : String
  compose : List (String × String)
  groups : List (String × String)
  keyed_groups : List KeyedSpec
  strict : Bool
  enhanced : Bool

/-- Modelled from the spec (§4.5): process one record - derive the host
name (empty value: silently skip the record; absent column: error),
create the host, copy columns, evaluate composed variables, composed
groups, keyed groups, and the enhanced relationship groups. -/
def fill_record
    (tmpl : String → List (String × String) → Except String String)
    (tmplB : String → List (String × String) → Except String Bool)
    (cfg : InvConfig) (st : InvState) (record : InvRecord) :
    Except String InvState :=
  match add_host record cfg.name_source with
  | .error e => .error e
  | .ok none => .ok st
  | .ok (some host) =>
      match set_hostvars (inv_add_host st host) host record cfg.columns with
      | .error e => .error e
      | .ok st1 =>
          match set_composite_vars tmpl cfg.strict host cfg.compose st1
              record.fields with
          | .error e => .error e
          | .ok (st2, ctx) =>
              match add_composed_groups tmplB cfg.strict host ctx cfg.groups
                  st2 with
              | .error e => .error e
              | .ok st3 =>
                  let st4 := add_keyed_groups host ctx cfg.keyed_groups st3
                  .ok (if cfg.enhanced then
                    fill_enhanced_auto_groups record host st4 else st4)

/-- The single ordered pass of `fill_constructed` over the record list,
from a given sink state; an error on any record aborts the whole
construction. -/
def fill_constructed_from
    (tmpl : String → List (String × String) → Except String String)
    (tmplB : String → List (String × String) → Except String Bool)
    (cfg : InvConfig) : List InvRecord → InvState → Except String InvState
  | [], st => .ok st
  | r :: rs, st =>
      match fill_record tmpl tmplB cfg st r with
      | .error e => .error e
      | .ok st1 => fill_constructed_from tmpl tmplB cfg rs st1

/-- Modelled from the spec (§4.5): `InventoryModule.fill_constructed` of
the missing `now.py`, starting from the framework's initial sink. -/
def fill_constructed
    (tmpl : String → List (String × String) → Except String String)
    (tmplB : String → List (String × String) → Except String Bool)
    (cfg : InvConfig) (records : List InvRecord) : Except String InvState :=
  fill_constructed_from tmpl tmplB cfg records initial_inventory

theorem set_composite_vars_append
    (tmpl : String → List (String × String) → Except String String)
    (s : Bool) (host : String) (xs ys : List (String × String)) :
    ∀ st ctx, set_composite_vars tmpl s host (xs ++ ys) st ctx =
      match set_composite_vars tmpl s host xs st ctx with
      | .ok p => set_composite_vars tmpl s host ys p.1 p.2
      | .error e => .error e := by
  induction xs with
  | nil =>
      intro st ctx
      rfl
  | cons x rest ih =>
      obtain ⟨name, expr⟩ := x
      intro st ctx
      simp only [List.cons_append, set_composite_vars]
      cases htmpl : tmpl expr ctx with
      | ok v => exact ih _ _
      | error e =>
          cases s
          · exact ih _ _
          · rfl

theorem set_composite_vars_true_to_false
    (tmpl : String → List (String × String) → Except String String)
    (host : String) (xs : List (String × String)) :
    ∀ st ctx p, set_composite_vars tmpl true host xs st ctx = .ok p →
      set_composite_vars tmpl false host xs st ctx = .ok p := by
  induction xs with
  | nil =>
      intro st ctx p h
      exact h
  | cons x rest ih =>
      obtain ⟨name, expr⟩ := x
      intro st ctx p h
      simp only [set_composite_vars] at h ⊢
      cases htmpl : tmpl expr ctx with
      | ok v =>
          rw [htmpl] at h
          exact ih _ _ _ h
      | error e =>
          rw [htmpl] at h
          simp at h

theorem set_composite_vars_false_ok
    (tmpl : String → List (String × String) → Except String String)
    (host : String) (xs : List (String × String)) :
    ∀ st ctx, ∃ p, set_composite_vars tmpl false host xs st ctx = .ok p := by
  induction xs with
  | nil =>
      intro st ctx
      exact ⟨(st, ctx), rfl⟩
  | cons x rest ih =>
      obtain ⟨name, expr⟩ := x
      intro st ctx
      simp only [set_composite_vars]
      cases htmpl : tmpl expr ctx with
      | ok v => exact ih _ _
      | error e => exact ih st ctx

theorem add_composed_groups_append
    (tmplB : String → List (String × String) → Except String Bool)
    (s : Bool) (host : String) (ctx : List (String × String))
    (xs ys : List (String × String)) :
    ∀ st, add_composed_groups tmplB s host ctx (xs ++ ys) st =
      match add_composed_groups tmplB s host ctx xs st with
      | .ok st2 => add_composed_groups tmplB s host ctx ys st2
      | .error e => .error e := by
  induction xs with
  | nil =>
      intro st
      rfl
  | cons x rest ih =>
      obtain ⟨g, expr⟩ := x
      intro st
      simp only [List.cons_append, add_composed_groups]
      cases htmpl : tmplB expr ctx with
      | ok b =>
          cases b
          · exact ih _
          · exact ih _
      | error e =>
          cases s
          · exact ih _
          · rfl

theorem add_composed_groups_true_to_false
    (tmplB : String → List (String × String) → Except String Bool)
    (host : String) (ctx : List (String × String))
    (xs : List (String × String)) :
    ∀ st st2, add_composed_groups tmplB true host ctx xs st = .ok st2 →
      add_composed_groups tmplB false host ctx xs st = .ok st2 := by
  induction xs with
  | nil =>
      intro st st2 h
      exact h
  | cons x rest ih =>
      obtain ⟨g, expr⟩ := x
      intro st st2 h
      simp only [add_composed_groups] at h ⊢
      cases htmpl : tmplB expr ctx with
      | ok b =>
          rw [htmpl] at h
          cases b
          · exact ih _ _ h
          · exact ih _ _ h
      | error e =>
          rw [htmpl] at h
          simp at h

theorem add_composed_groups_false_ok
    (tmplB : String → List (String × String) → Except String Bool)
    (host : String) (ctx : List (String × String))
    (xs : List (String × String)) :
    ∀ st, ∃ st2, add_composed_groups tmplB false host ctx xs st = .ok st2 := by
  induction xs with
  | nil =>
      intro st
      exact ⟨st, rfl⟩
  | cons x rest ih =>
      obtain ⟨g, expr⟩ := x
      intro st
      simp only [add_composed_groups]
      cases htmpl : tmplB expr ctx with
      | ok b =>
          cases b
          · exact ih _
          · exact ih _
      | error e => exact ih st

/-- State extension order on the inventory sink: every group, group
membership and nesting edge of the smaller state is present in the
larger one. -/
def sink_le (s t : InvState) : Prop :=
  (∀ g, g ∈ mkeys s.groupHosts → g ∈ mkeys t.groupHosts) ∧
  (∀ g x, x ∈ mget s.groupHosts g → x ∈ mget t.groupHosts g) ∧
  (∀ p c, c ∈ mget s.groupChildren p → c ∈ mget t.groupChildren p)

theorem sink_le_refl (s : InvState) : sink_le s s :=
  ⟨fun _ h => h, fun _ _ h => h, fun _ _ h => h⟩

theorem sink_le_trans {s t u : InvState} (h1 : sink_le s t) (h2 : sink_le t u) :
    sink_le s u :=
  ⟨fun g h => h2.1 g (h1.1 g h),
   fun g x h => h2.2.1 g x (h1.2.1 g x h),
   fun p c h => h2.2.2 p c (h1.2.2 p c h)⟩

theorem sink_le_add_host_to_group (st : InvState) (g host : String) :
    sink_le st (inv_add_host_to_group st g host) :=
  ⟨fun g2 h => mem_mkeys_madd _ g2 g host h,
   fun g2 x h => mem_mget_madd _ g2 g x host h,
   fun _ _ h => h⟩

theorem sink_le_add_child_group (st : InvState) (p c : String) :
    sink_le st (inv_add_child_group st p c) :=
  ⟨fun _ h => h, fun _ _ h => h,
   fun p2 c2 h => mem_mget_madd _ p2 p c2 c h⟩

theorem add_keyed_groups_cons (host : String) (ctx : List (String × String))
    (spec : KeyedSpec) (rest : List KeyedSpec) (st : InvState) :
    add_keyed_groups host ctx (spec :: rest) st =
      add_keyed_groups host ctx rest
        (match spec.parent_group with
         | none => inv_add_host_to_group st
             (spec.prefixName ++ "_" ++ keyed_group_value ctx spec) host
         | some pg =>
             inv_add_child_group
               (inv_add_host_to_group
                 (inv_add_host_to_group st
                   (spec.prefixName ++ "_" ++ keyed_group_value ctx spec) host)
                 pg host)
               pg (spec.prefixName ++ "_" ++ keyed_group_value ctx spec)) := by
  rfl

theorem sink_le_add_keyed_groups (host : String)
    (ctx : List (String × String)) (specs : List KeyedSpec) :
    ∀ st, sink_le st (add_keyed_groups host ctx specs st) := by
  induction specs with
  | nil =>
      intro st
      exact sink_le_refl st
  | cons spec rest ih =>
      intro st
      rw [add_keyed_groups_cons]
      refine sink_le_trans ?_ (ih _)
      cases hpg : spec.parent_group with
      | none => exact sink_le_add_host_to_group _ _ _
      | some pg =>
          exact sink_le_trans (sink_le_add_host_to_group st _ host)
            (sink_le_trans (sink_le_add_host_to_group _ pg host)
              (sink_le_add_child_group _ pg _))

theorem sink_le_fill_enhanced_groups_go (host : String) (gs : List String) :
    ∀ st, sink_le st (gs.foldl
      (fun acc g => inv_add_host_to_group acc (normalize_group_name g) host)
      st) := by
  induction gs with
  | nil =>
      intro st
      exact sink_le_refl st
  | cons g rest ih =>
      intro st
      simp only [List.foldl_cons]
      exact sink_le_trans (sink_le_add_host_to_group st _ host) (ih _)

theorem sink_le_fill_enhanced (record : InvRecord) (host : String)
    (st : InvState) : sink_le st (fill_enhanced_auto_groups record host st) :=
  sink_le_fill_enhanced_groups_go host _ st

/-- The state produced by one keyed-group specification that has a
parent group: host into the keyed group, host into the parent group,
keyed group nested under the parent. -/
def keyed_parent_step (st : InvState) (host gname pg : String) : InvState :=
  inv_add_child_group
    (inv_add_host_to_group (inv_add_host_to_group st gname host) pg host)
    pg gname

theorem keyed_step_facts (st : InvState) (host gname pg : String) :
    gname ∈ mkeys (keyed_parent_step st host gname pg).groupHosts ∧
      host ∈ mget (keyed_parent_step st host gname pg).groupHosts gname ∧
      pg ∈ mkeys (keyed_parent_step st host gname pg).groupHosts ∧
      host ∈ mget (keyed_parent_step st host gname pg).groupHosts pg ∧
      gname ∈ mget (keyed_parent_step st host gname pg).groupChildren pg := by
  refine ⟨?_, ?_, ?_, ?_, ?_⟩
  · exact mem_mkeys_madd _ gname pg host (mem_mkeys_madd_self _ gname host)
  · exact mem_mget_madd _ gname pg host host (mem_mget_madd_self _ gname host)
  · exact mem_mkeys_madd_self _ pg host
  · exact mem_mget_madd_self _ pg host
  · exact mem_mget_madd_self _ pg gname

theorem set_composite_vars_head_error
    (tmpl : String → List (String × String) → Except String String)
    (host name expr uid : String) (rest : List (String × String))
    (st : InvState) (ctx : List (String × String))
    (h : tmpl expr ctx = .error uid) :
    set_composite_vars tmpl true host ((name, expr) :: rest) st ctx =
      .error uid := by
  simp only [set_composite_vars, h]
  rfl

theorem set_composite_vars_head_skip
    (tmpl : String → List (String × String) → Except String String)
    (host name expr uid : String) (rest : List (String × String))
    (st : InvState) (ctx : List (String × String))
    (h : tmpl expr ctx = .error uid) :
    set_composite_vars tmpl false host ((name, expr) :: rest) st ctx =
      set_composite_vars tmpl false host rest st ctx := by
  simp only [set_composite_vars, h]
  rfl

theorem add_composed_groups_head_error
    (tmplB : String → List (String × String) → Except String Bool)
    (host gname expr uid : String) (rest : List (String × String))
    (st : InvState) (ctx : List (String × String))
    (h : tmplB expr ctx = .error uid) :
    add_composed_groups tmplB true host ctx ((gname, expr) :: rest) st =
      .error uid := by
  simp only [add_composed_groups, h]
  rfl

theorem add_composed_groups_head_skip
    (tmplB : String → List (String × String) → Except String Bool)
    (host gname expr uid : String) (rest : List (String × String))
    (st : InvState) (ctx : List (String × String))
    (h : tmplB expr ctx = .error uid) :
    add_composed_groups tmplB false host ctx ((gname, expr) :: rest) st =
      add_composed_groups tmplB false host ctx rest st := by
  simp only [add_composed_groups, h]
  rfl

/-- C4: an undefined reference in a composed-variable or group-membership
template, reported by the templating collaborator as an error naming the
undefined identifier, aborts the whole construction with that error when
strict is true; when strict is false only that one variable or group
assignment is skipped - processing the record gives exactly the state of
a run whose configuration omits the failing entry, so every other host,
variable and group of the pass is produced unchanged. -/
theorem C4_template_error_strictness
    (tmpl : String → List (String × String) → Except String String)
    (tmplB : String → List (String × String) → Except String Bool)
    (record : InvRecord) (host ns : String) (columns : List String)
    (st st1 : InvState)
    (hadd : add_host record ns = .ok (some host))
    (hcols : set_hostvars (inv_add_host st host) host record columns =
      .ok st1) :
    (∀ (pre post : List (String × String)) (vname vexpr uid : String)
        (st2 : InvState) (ctx2 : List (String × String))
        (glist : List (String × String)) (keyed : List KeyedSpec)
        (enhanced : Bool) (rest : List InvRecord),
      set_composite_vars tmpl true host pre st1 record.fields =
        .ok (st2, ctx2) →
      tmpl vexpr ctx2 = .error uid →
      fill_constructed_from tmpl tmplB
        ⟨columns, ns, pre ++ (vname, vexpr) :: post, glist, keyed, true,
          enhanced⟩ (record :: rest) st = .error uid) ∧
    (∀ (pre post : List (String × String)) (vname vexpr uid : String)
        (st2 : InvState) (ctx2 : List (String × String))
        (glist : List (String × String)) (keyed : List KeyedSpec)
        (enhanced : Bool),
      set_composite_vars tmpl true host pre st1 record.fields =
        .ok (st2, ctx2) →
      tmpl vexpr ctx2 = .error uid →
      fill_record tmpl tmplB
        ⟨columns, ns, pre ++ (vname, vexpr) :: post, glist, keyed, false,
          enhanced⟩ st record =
      fill_record tmpl tmplB
        ⟨columns, ns, pre ++ post, glist, keyed, false, enhanced⟩ st record) ∧
    (∀ (gpre gpost : List (String × String)) (gname gexpr uid : String)
        (st3 : InvState) (keyed : List KeyedSpec) (enhanced : Bool)
        (rest : List InvRecord),
      add_composed_groups tmplB true host record.fields gpre st1 = .ok st3 →
      tmplB gexpr record.fields = .error uid →
      fill_constructed_from tmpl tmplB
        ⟨columns, ns, [], gpre ++ (gname, gexpr) :: gpost, keyed, true,
          enhanced⟩ (record :: rest) st = .error uid) ∧
    (∀ (gpre gpost : List (String × String)) (gname gexpr uid : String)
        (keyed : List KeyedSpec) (enhanced : Bool),
      tmplB gexpr record.fields = .error uid →
      fill_record tmpl tmplB
        ⟨columns, ns, [], gpre ++ (gname, gexpr) :: gpost, keyed, false,
          enhanced⟩ st record =
      fill_record tmpl tmplB
        ⟨columns, ns, [], gpre ++ gpost, keyed, false, enhanced⟩ st record) := by
  refine ⟨?_, ?_, ?_, ?_⟩
  · intro pre post vname vexpr uid st2 ctx2 glist keyed enhanced rest hpre hfail
    have hscv : set_composite_vars tmpl true host
        (pre ++ (vname, vexpr) :: post) st1 record.fields = .error uid := by
      rw [set_composite_vars_append tmpl true host pre ((vname, vexpr) :: post)
        st1 record.fields, hpre]
      exact set_composite_vars_head_error tmpl host vname vexpr uid post
        st2 ctx2 hfail
    have hfr : fill_record tmpl tmplB
        ⟨columns, ns, pre ++ (vname, vexpr) :: post, glist, keyed, true,
          enhanced⟩ st record = .error uid := by
      simp only [fill_record, hadd, hcols, hscv]
    simp only [fill_constructed_from, hfr]
  · intro pre post vname vexpr uid st2 ctx2 glist keyed enhanced hpre hfail
    have hpre2 := set_composite_vars_true_to_false tmpl host pre st1
      record.fields (st2, ctx2) hpre
    have hW : set_composite_vars tmpl false host
        (pre ++ (vname, vexpr) :: post) st1 record.fields =
        set_composite_vars tmpl false host post st2 ctx2 := by
      rw [set_composite_vars_append tmpl false host pre ((vname, vexpr) :: post)
        st1 record.fields, hpre2]
      exact set_composite_vars_head_skip tmpl host vname vexpr uid post
        st2 ctx2 hfail
    have hWo : set_composite_vars tmpl false host (pre ++ post) st1
        record.fields = set_composite_vars tmpl false host post st2 ctx2 := by
      rw [set_composite_vars_append tmpl false host pre post st1
        record.fields, hpre2]
    simp only [fill_record, hadd, hcols, hW, hWo]
  · intro gpre gpost gname gexpr uid st3 keyed enhanced rest hgpre hgfail
    have hacg : add_composed_groups tmplB true host record.fields
        (gpre ++ (gname, gexpr) :: gpost) st1 = .error uid := by
      rw [add_composed_groups_append tmplB true host record.fields gpre
        ((gname, gexpr) :: gpost) st1, hgpre]
      exact add_composed_groups_head_error tmplB host gname gexpr uid gpost
        st3 record.fields hgfail
    have hfr : fill_record tmpl tmplB
        ⟨columns, ns, [], gpre ++ (gname, gexpr) :: gpost, keyed, true,
          enhanced⟩ st record = .error uid := by
      simp only [fill_record, hadd, hcols, set_composite_vars, hacg]
    simp only [fill_constructed_from, hfr]
  · intro gpre gpost gname gexpr uid keyed enhanced hgfail
    obtain ⟨stX, hstX⟩ := add_composed_groups_false_ok tmplB host
      record.fields gpre st1
    have hW : add_composed_groups tmplB false host record.fields
        (gpre ++ (gname, gexpr) :: gpost) st1 =
        add_composed_groups tmplB false host record.fields gpost stX := by
      rw [add_composed_groups_append tmplB false host record.fields gpre
        ((gname, gexpr) :: gpost) st1, hstX]
      exact add_composed_groups_head_skip tmplB host gname gexpr uid gpost
        stX record.fields hgfail
    have hWo : add_composed_groups tmplB false host record.fields
        (gpre ++ gpost) st1 =
        add_composed_groups tmplB false host record.fields gpost stX := by
      rw [add_composed_groups_append tmplB false host record.fields gpre
        gpost st1, hstX]
    simp only [fill_record, hadd, hcols, set_composite_vars, hW, hWo]

/-- A concrete templating collaborator for witnesses: an expression is a
bare variable name, evaluated by lookup; a missing variable is an
undefined reference naming that identifier (spec §6). -/
def lookup_eval (expr : String) (vars : List (String × String)) :
    Except String String :=
  match alookup vars expr with
  | some v => .ok v
  | none => .error expr

/-- Boolean variant of `lookup_eval`: a present variable is truthy when
non-empty. -/
def lookup_eval_bool (expr : String) (vars : List (String × String)) :
    Except String Bool :=
  match alookup vars expr with
  | some v => .ok (v != "")
  | none => .error expr

/-- Witness for C4 at the tests' fixture: the composed variable
`failed = non_existing` aborts the whole construction naming
`non_existing` under strict mode, and under non-strict mode processing
the record equals the run without that composed variable. -/
theorem C4_template_error_strictness_witness :
    fill_constructed_from lookup_eval lookup_eval_bool
        ⟨[], "fqdn", [("failed", "non_existing")], [], [], true, false⟩
        [⟨[("sys_id", "1"), ("fqdn", "a1")], none⟩] initial_inventory =
      .error "non_existing" ∧
    fill_record lookup_eval lookup_eval_bool
        ⟨[], "fqdn", [("failed", "non_existing")], [], [], false, false⟩
        initial_inventory ⟨[("sys_id", "1"), ("fqdn", "a1")], none⟩ =
      fill_record lookup_eval lookup_eval_bool
        ⟨[], "fqdn", [], [], [], false, false⟩
        initial_inventory ⟨[("sys_id", "1"), ("fqdn", "a1")], none⟩ := by
  constructor
  · exact (C4_template_error_strictness lookup_eval lookup_eval_bool
      ⟨[("sys_id", "1"), ("fqdn", "a1")], none⟩ "a1" "fqdn" []
      initial_inventory (inv_add_host initial_inventory "a1") rfl rfl).1
      [] [] "failed" "non_existing" "non_existing"
      (inv_add_host initial_inventory "a1") [("sys_id", "1"), ("fqdn", "a1")]
      [] [] false [] rfl rfl
  · exact (C4_template_error_strictness lookup_eval lookup_eval_bool
      ⟨[("sys_id", "1"), ("fqdn", "a1")], none⟩ "a1" "fqdn" []
      initial_inventory (inv_add_host initial_inventory "a1") rfl rfl).2.1
      [] [] "failed" "non_existing" "non_existing"
      (inv_add_host initial_inventory "a1") [("sys_id", "1"), ("fqdn", "a1")]
      [] [] false rfl rfl

theorem add_keyed_groups_append (host : String)
    (ctx : List (String × String)) (xs ys : List KeyedSpec) :
    ∀ st, add_keyed_groups host ctx (xs ++ ys) st =
      add_keyed_groups host ctx ys (add_keyed_groups host ctx xs st) := by
  induction xs with
  | nil =>
      intro st
      rfl
  | cons spec rest ih =>
      intro st
      simp only [List.cons_append]
      rw [add_keyed_groups_cons, add_keyed_groups_cons, ih]

/-- C5 (amended): for every keyed-group specification with a configured
parent group, `fill_constructed`'s record pass names the keyed group
`prefix + "_" + (record[key] or default)` and adds the host to it, and
additionally creates a group named by the configured `parent_group`
string itself (not by the record's value of that field), adds the host
to that parent group, and nests the keyed group under it. -/
theorem C5_keyed_group_parent_amended
    (tmpl : String → List (String × String) → Except String String)
    (tmplB : String → List (String × String) → Except String Bool)
    (record : InvRecord) (host ns pg : String) (columns : List String)
    (st st1 stF : InvState) (strict enhanced : Bool)
    (pre post : List KeyedSpec) (spec : KeyedSpec)
    (hadd : add_host record ns = .ok (some host))
    (hcols : set_hostvars (inv_add_host st host) host record columns =
      .ok st1)
    (hpg : spec.parent_group = some pg)
    (hres : fill_record tmpl tmplB
      ⟨columns, ns, [], [], pre ++ spec :: post, strict, enhanced⟩ st record =
      .ok stF) :
    (spec.prefixName ++ "_" ++ keyed_group_value record.fields spec) ∈
        mkeys stF.groupHosts ∧
      host ∈ mget stF.groupHosts
        (spec.prefixName ++ "_" ++ keyed_group_value record.fields spec) ∧
      pg ∈ mkeys stF.groupHosts ∧
      host ∈ mget stF.groupHosts pg ∧
      (spec.prefixName ++ "_" ++ keyed_group_value record.fields spec) ∈
        mget stF.groupChildren pg := by
  have hscv : set_composite_vars tmpl strict host [] st1 record.fields =
      .ok (st1, record.fields) := rfl
  have hacg : add_composed_groups tmplB strict host record.fields [] st1 =
      .ok st1 := rfl
  have hres2 : stF = (if enhanced then
      fill_enhanced_auto_groups record host
        (add_keyed_groups host record.fields (pre ++ spec :: post) st1)
      else add_keyed_groups host record.fields (pre ++ spec :: post) st1) := by
    have h := hres
    simp only [fill_record, hadd, hcols, hscv, hacg] at h
    exact (Except.ok.inj h).symm
  have hst4 : add_keyed_groups host record.fields (pre ++ spec :: post) st1 =
      add_keyed_groups host record.fields post
        (keyed_parent_step (add_keyed_groups host record.fields pre st1) host
          (spec.prefixName ++ "_" ++ keyed_group_value record.fields spec)
          pg) := by
    rw [add_keyed_groups_append, add_keyed_groups_cons, hpg]
    rfl
  have hle : sink_le
      (keyed_parent_step (add_keyed_groups host record.fields pre st1) host
        (spec.prefixName ++ "_" ++ keyed_group_value record.fields spec) pg)
      stF := by
    rw [hres2, hst4]
    have h1 := sink_le_add_keyed_groups host record.fields post
      (keyed_parent_step (add_keyed_groups host record.fields pre st1) host
        (spec.prefixName ++ "_" ++ keyed_group_value record.fields spec) pg)
    cases enhanced
    · exact h1
    · exact sink_le_trans h1 (sink_le_fill_enhanced record host _)
  obtain ⟨f1, f2, f3, f4, f5⟩ := keyed_step_facts
    (add_keyed_groups host record.fields pre st1) host
    (spec.prefixName ++ "_" ++ keyed_group_value record.fields spec) pg
  exact ⟨hle.1 _ f1, hle.2.1 _ _ f2, hle.1 _ f3, hle.2.1 _ _ f4,
    hle.2.2 _ _ f5⟩

/-- Extract the final sink state of a successful construction. -/
def result_state (r : Except String InvState) : InvState :=
  match r with
  | .ok st => st
  | .error _ => initial_inventory

/-- The fixture of `test_construction_keyed_groups_with_parent`. -/
def c5_records : List InvRecord :=
  [⟨[("sys_id", "1"), ("ip_address", "1.1.1.1"), ("fqdn", "a1"),
      ("cost_cc", "EUR")], none⟩,
   ⟨[("sys_id", "2"), ("ip_address", "1.1.1.2"), ("fqdn", "a2"),
      ("cost_cc", "USD")], none⟩]

/-- Keyed group on `cost_cc` with prefix `cc` and parent group
`ip_address`, as in the fixture. -/
def c5_cfg : InvConfig :=
  ⟨[], "fqdn", [], [], [⟨"cost_cc", "EUR", "cc", some "ip_address"⟩],
    false, false⟩

/-- C5 counterexample: on the repository's own fixture the parent group
is named `ip_address` - the configured parent_group string - and no
group named `1.1.1.1` (the record's value of that field, which the claim
predicts) exists, while the keyed child group `cc_EUR` does. -/
theorem C5_parent_group_name_counterexample :
    "ip_address" ∈ mkeys (result_state (fill_constructed lookup_eval
        lookup_eval_bool c5_cfg c5_records)).groupHosts ∧
    ¬ ("1.1.1.1" ∈ mkeys (result_state (fill_constructed lookup_eval
        lookup_eval_bool c5_cfg c5_records)).groupHosts) ∧
    "cc_EUR" ∈ mkeys (result_state (fill_constructed lookup_eval
        lookup_eval_bool c5_cfg c5_records)).groupHosts ∧
    "cc_EUR" ∈ mget (result_state (fill_constructed lookup_eval
        lookup_eval_bool c5_cfg c5_records)).groupChildren "ip_address" := by
  decide

/-- Witness for C5 (amended) on the first fixture record: the keyed
group `cc_EUR` and the parent group `ip_address` both hold host `a1`,
with `cc_EUR` nested under `ip_address`. -/
theorem C5_keyed_group_parent_amended_witness :
    "cc_EUR" ∈ mkeys (result_state (fill_record lookup_eval lookup_eval_bool
        c5_cfg initial_inventory
        ⟨[("sys_id", "1"), ("ip_address", "1.1.1.1"), ("fqdn", "a1"),
          ("cost_cc", "EUR")], none⟩)).groupHosts ∧
    "a1" ∈ mget (result_state (fill_record lookup_eval lookup_eval_bool
        c5_cfg initial_inventory
        ⟨[("sys_id", "1"), ("ip_address", "1.1.1.1"), ("fqdn", "a1"),
          ("cost_cc", "EUR")], none⟩)).groupHosts "cc_EUR" ∧
    "ip_address" ∈ mkeys (result_state (fill_record lookup_eval
        lookup_eval_bool c5_cfg initial_inventory
        ⟨[("sys_id", "1"), ("ip_address", "1.1.1.1"), ("fqdn", "a1"),
          ("cost_cc", "EUR")], none⟩)).groupHosts ∧
    "a1" ∈ mget (result_state (fill_record lookup_eval lookup_eval_bool
        c5_cfg initial_inventory
        ⟨[("sys_id", "1"), ("ip_address", "1.1.1.1"), ("fqdn", "a1"),
          ("cost_cc", "EUR")], none⟩)).groupHosts "ip_address" ∧
    "cc_EUR" ∈ mget (result_state (fill_record lookup_eval lookup_eval_bool
        c5_cfg initial_inventory
        ⟨[("sys_id", "1"), ("ip_address", "1.1.1.1"), ("fqdn", "a1"),
          ("cost_cc", "EUR")], none⟩)).groupChildren "ip_address" := by
  exact C5_keyed_group_parent_amended lookup_eval lookup_eval_bool
    ⟨[("sys_id", "1"), ("ip_address", "1.1.1.1"), ("fqdn", "a1"),
      ("cost_cc", "EUR")], none⟩ "a1" "fqdn" "ip_address" []
    initial_inventory (inv_add_host initial_inventory "a1")
    (result_state (fill_record lookup_eval lookup_eval_bool c5_cfg
      initial_inventory
      ⟨[("sys_id", "1"), ("ip_address", "1.1.1.1"), ("fqdn", "a1"),
        ("cost_cc", "EUR")], none⟩))
    false false [] [] ⟨"cost_cc", "EUR", "cc", some "ip_address"⟩
    rfl rfl rfl rfl

/-- C6 (amended): a record whose name-source field holds the empty
string is silently skipped - no host is created, no error is raised, the
sink state is unchanged and the rest of the pass proceeds as if the
record were absent; a record whose name-source field is missing
altogether is not skipped silently: it raises a parse error naming the
column and aborts the construction. -/
theorem C6_name_source_amended
    (tmpl : String → List (String × String) → Except String String)
    (tmplB : String → List (String × String) → Except String Bool)
    (record : InvRecord) (ns : String) (columns : List String)
    (compose glist : List (String × String)) (keyed : List KeyedSpec)
    (strict enhanced : Bool) (st : InvState) (rest : List InvRecord) :
    (alookup record.fields ns = some "" →
      fill_record tmpl tmplB
          ⟨columns, ns, compose, glist, keyed, strict, enhanced⟩ st record =
        .ok st ∧
      fill_constructed_from tmpl tmplB
          ⟨columns, ns, compose, glist, keyed, strict, enhanced⟩
          (record :: rest) st =
        fill_constructed_from tmpl tmplB
          ⟨columns, ns, compose, glist, keyed, strict, enhanced⟩ rest st) ∧
    (alookup record.fields ns = none →
      fill_record tmpl tmplB
          ⟨columns, ns, compose, glist, keyed, strict, enhanced⟩ st record =
        .error ("Invalid column name " ++ ns ++ ".")) := by
  constructor
  · intro h
    have hah : add_host record ns = .ok none := by
      simp [add_host, h]
    have hfr : fill_record tmpl tmplB
        ⟨columns, ns, compose, glist, keyed, strict, enhanced⟩ st record =
        .ok st := by
      simp only [fill_record, hah]
    refine ⟨hfr, ?_⟩
    simp only [fill_constructed_from, hfr]
  · intro h
    have hah : add_host record ns =
        .error ("Invalid column name " ++ ns ++ ".") := by
      simp [add_host, h]
    simp only [fill_record, hah]

/-- The record of `TestInventoryModuleAddHost`. -/
def c6_record : InvRecord :=
  ⟨[("name_source", "dummy_host"), ("sys_id", "123")], none⟩

/-- C6 counterexample: a record whose name-source column is absent is
not silently skipped - `add_host` raises a parse error naming the
column, and the whole record pass aborts with it, contradicting the
claim that add_host creates no host and raises no error in this case. -/
theorem C6_absent_name_source_counterexample :
    add_host c6_record "invalid_name" =
        .error ("Invalid column name " ++ "invalid_name" ++ ".") ∧
    fill_record lookup_eval lookup_eval_bool
        ⟨[], "invalid_name", [], [], [], false, false⟩ initial_inventory
        c6_record =
      .error ("Invalid column name " ++ "invalid_name" ++ ".") := by
  exact ⟨rfl, rfl⟩

/-- Witness for C6 (amended): the empty-name record is skipped silently
(state unchanged, pass continues) and the absent-column record raises
the naming error. -/
theorem C6_name_source_amended_witness :
    fill_record lookup_eval lookup_eval_bool
        ⟨[], "name_source", [], [], [], false, false⟩ initial_inventory
        ⟨[("name_source", ""), ("sys_id", "123")], none⟩ =
      .ok initial_inventory ∧
    fill_constructed_from lookup_eval lookup_eval_bool
        ⟨[], "name_source", [], [], [], false, false⟩
        [⟨[("name_source", ""), ("sys_id", "123")], none⟩]
        initial_inventory =
      fill_constructed_from lookup_eval lookup_eval_bool
        ⟨[], "name_source", [], [], [], false, false⟩ [] initial_inventory := by
  exact (C6_name_source_amended lookup_eval lookup_eval_bool
    ⟨[("name_source", ""), ("sys_id", "123")], none⟩ "name_source" [] [] []
    [] false false initial_inventory []).1 rfl

/-- Modelled from the spec (§4.3): one relationship-table row as the
missing `now.py` sees it, flattened - the row carries either
`child.sys_id` plus `parent.name` (base record in the child role) or
`parent.sys_id` plus `child.name` (base record in the parent role),
together with the `type.name` label pair
`"<label-if-child>::<label-if-parent>"`. -/
structure RelRecord where
  child_sys_id : Option String := none
  parent_name : Option String := none
  parent_sys_id : Option String := none
  child_name : Option String := none
  type_name : String

/-- Split a character list at the first occurrence of a double colon;
without one, the second half is empty. -/
def split_double_colon (acc : List Char) :
    List Char → List Char × List Char
  | [] => (acc.reverse, [])
  | ':' :: ':' :: rest => (acc.reverse, rest)
  | c :: cs => split_double_colon (c :: acc) cs

/-- First half of the relationship label. -/
def rel_first_half (label : String) : String :=
  String.mk (split_double_colon [] label.toList).1

/-- Second half of the relationship label. -/
def rel_second_half (label : String) : String :=
  String.mk (split_double_colon [] label.toList).2

/-- Modelled from the spec (§4.3): the group string one relationship row
contributes to the record with the given sys_id, if any - in the child
role the partner's parent name with the first label half, in the parent
role the partner's child name with the second half, spaces and hyphens
normalized to underscores. -/
def rel_group_of (sysId : String) (rel : RelRecord) : Option String :=
  if rel.child_sys_id = some sysId then
    match rel.parent_name with
    | some pn =>
        some (normalize_group_name (pn ++ "_" ++ rel_first_half rel.type_name))
    | none => none
  else if rel.parent_sys_id = some sysId then
    match rel.child_name with
    | some cn =>
        some (normalize_group_name (cn ++ "_" ++ rel_second_half rel.type_name))
    | none => none
  else none

/-- All group strings the relationship rows synthesize for one sys_id,
in row order. -/
def relationship_groups_for (sysId : String) (rels : List RelRecord) :
    List String :=
  rels.filterMap (rel_group_of sysId)

/-- Modelled from the spec (§4.3): fold the synthesized strings for a
record's sys_id into its `relationship_groups` (union with any existing
entries, never overwrite); the field is always present afterwards, so a
record without matching rows carries an empty set rather than a missing
field. -/
def enrich_record (rels : List RelRecord) (r : InvRecord) : InvRecord :=
  match alookup r.fields "sys_id" with
  | some sid =>
      ⟨r.fields, some (r.relationship_groups.getD [] ++
        relationship_groups_for sid rels)⟩
  | none => ⟨r.fields, some (r.relationship_groups.getD [])⟩

/-- Modelled from the spec (§4.3): the relationship enricher applied to
the whole fetched record list before it is returned. -/
def enhance_records (records : List InvRecord) (rels : List RelRecord) :
    List InvRecord :=
  records.map (enrich_record rels)

theorem rel_group_of_eq_some (sysId g : String) (rel : RelRecord) :
    rel_group_of sysId rel = some g ↔
      ((rel.child_sys_id = some sysId ∧ ∃ pn, rel.parent_name = some pn ∧
          g = normalize_group_name
            (pn ++ "_" ++ rel_first_half rel.type_name)) ∨
        (¬ rel.child_sys_id = some sysId ∧ rel.parent_sys_id = some sysId ∧
          ∃ cn, rel.child_name = some cn ∧
          g = normalize_group_name
            (cn ++ "_" ++ rel_second_half rel.type_name))) := by
  unfold rel_group_of
  by_cases h1 : rel.child_sys_id = some sysId
  · rw [if_pos h1]
    cases hpn : rel.parent_name with
    | some pn => simp [h1, hpn, eq_comm]
    | none => simp [h1, hpn]
  · rw [if_neg h1]
    by_cases h2 : rel.parent_sys_id = some sysId
    · rw [if_pos h2]
      cases hcn : rel.child_name with
      | some cn => simp [h1, h2, hcn, eq_comm]
      | none => simp [h1, h2, hcn]
    · rw [if_neg h2]
      simp [h1, h2]

/-- C7: for every base record carrying a sys_id, the enriched record's
`relationship_groups` holds exactly the union of its previous entries
with, for every relationship row in which the record appears in the
child role, `"<parent-name>_<first-half-of-label>"`, and for every row
in which it appears in the parent role,
`"<child-name>_<second-half-of-label>"` (label split on the double
colon, spaces and hyphens normalized to underscores); the field is
always present after enrichment, and the enricher maps every record of
the fetched list this way before returning it. -/
theorem C7_relationship_enricher (rels : List RelRecord) (r : InvRecord)
    (sid : String) (hsid : alookup r.fields "sys_id" = some sid) :
    (∀ g, g ∈ (enrich_record rels r).relationship_groups.getD [] ↔
      (g ∈ r.relationship_groups.getD [] ∨
        ∃ rel ∈ rels,
          ((rel.child_sys_id = some sid ∧ ∃ pn, rel.parent_name = some pn ∧
              g = normalize_group_name
                (pn ++ "_" ++ rel_first_half rel.type_name)) ∨
            (¬ rel.child_sys_id = some sid ∧ rel.parent_sys_id = some sid ∧
              ∃ cn, rel.child_name = some cn ∧
              g = normalize_group_name
                (cn ++ "_" ++ rel_second_half rel.type_name))))) ∧
    ((enrich_record rels r).relationship_groups).isSome = true ∧
    ∀ records : List InvRecord,
      enhance_records records rels = records.map (enrich_record rels) := by
  refine ⟨?_, ?_, fun _ => rfl⟩
  · intro g
    simp only [enrich_record, hsid, Option.getD_some, List.mem_append,
      relationship_groups_for, List.mem_filterMap, rel_group_of_eq_some]
  · simp [enrich_record, hsid]

/-- The child-role row of `test_fetch_records_from_sn_enhanced`. -/
def c7_rel1 : RelRecord :=
  ⟨some "123abc", some "parent", none, none,
    "Parent description::Child description"⟩

/-- The parent-role row of the same fixture. -/
def c7_rel2 : RelRecord :=
  ⟨none, none, some "123abc", some "child",
    "Parent description::Child description"⟩

/-- The base record of the same fixture. -/
def c7_base : InvRecord :=
  ⟨[("sys_id", "123abc"), ("ip_address", "1.2.3.4"),
    ("fqdn", "01.cmdb_ci.com")], none⟩

/-- Witness for C7 at the fixture: the child-role row yields
`parent_Parent_description` (first label half) and the parent-role row
yields `child_Child_description` (second half), both in the enriched
record's `relationship_groups`. -/
theorem C7_relationship_enricher_witness :
    "parent_Parent_description" ∈
        (enrich_record [c7_rel1, c7_rel2] c7_base).relationship_groups.getD
          [] ∧
    "child_Child_description" ∈
        (enrich_record [c7_rel1, c7_rel2] c7_base).relationship_groups.getD
          [] := by
  constructor
  · exact ((C7_relationship_enricher [c7_rel1, c7_rel2] c7_base "123abc"
      rfl).1 "parent_Parent_description").mpr
      (Or.inr ⟨c7_rel1, List.mem_cons_self c7_rel1 _,
        Or.inl ⟨rfl, "parent", rfl, rfl⟩⟩)
  · exact ((C7_relationship_enricher [c7_rel1, c7_rel2] c7_base "123abc"
      rfl).1 "child_Child_description").mpr
      (Or.inr ⟨c7_rel2,
        List.mem_cons_of_mem _ (List.mem_cons_self c7_rel2 _),
        Or.inr ⟨by decide, rfl, "child", rfl, rfl⟩⟩)
